import Mathlib

/-!
Verification of the Stock-RSI-App analysis pipeline (`streamlit_app.py`).

Shallow embedding conventions:
* Close prices are modelled as exact rationals (`ℚ`); a missing / NaN entry in a
  pandas Series is modelled as `none` in an `Option ℚ`.
* `pandas.Series.dropna` is `List.filterMap id`.
* `Series.diff` produces a leading NaN followed by successive differences; the
  leading NaN propagates unchanged through `clip`, `ewm` (which seeds on the
  first valid value) and the arithmetic in `rsi`, so it is modelled as the
  leading `none` that `rsi` prepends to the pointwise part of the output.
* Float `/` with a zero denominator is modelled in `rsiPoint`: the numerator
  and denominator are smoothed non-negative averages, so `u / 0` is `+inf` for
  `u > 0` (giving RSI `100 - 100/(1+inf) = 100`) and NaN for `u = 0`.
* Annualized volatility needs `log` and `sqrt` and therefore lives in `ℝ`.
* The market-data provider (`yfinance`) is an external collaborator and is
  modelled as an oracle (`Provider`): each fallible call site of
  `fetch_all` corresponds to one oracle field, with `none` standing for a
  raised exception at that call site.
-/

/-- Configuration constant `RSI_PERIOD = 14` from the source. -/
def RSI_PERIOD : ℚ := 14

/-- Configuration constant `VOL_DAYS = 252` from the source. -/
def VOL_DAYS : Nat := 252

/-- Configuration constant `N_CARDS = 10` from the source. -/
def N_CARDS : Nat := 10

/-- Palette entry `PALETTE["gray"]` used for Conflict cards. -/
def PALETTE_gray : String := "#95a5a6"

/-- Palette entry `PALETTE["green"]` used for Buy cards. -/
def PALETTE_green : String := "#2ecc71"

/-- Palette entry `PALETTE["red"]` used for Sell cards. -/
def PALETTE_red : String := "#e74c3c"

/-- Palette entry `PALETTE["yellow"]` used for Neutral cards. -/
def PALETTE_yellow : String := "#fff7cc"

/-- One row of a per-ticker price table: the trading date (as a day number,
calendar weeks are the blocks `[7k, 7k+6]`) and the `Close` value
(`none` models a missing / NaN entry). -/
structure Row where
  date : Nat
  close : Option ℚ
deriving DecidableEq

/-- A per-ticker price table (`pandas.DataFrame`): whether a `Close` column is
present, and the rows in index order. -/
structure DF where
  hasClose : Bool
  rows : List Row
deriving DecidableEq

/-- The empty `pd.DataFrame()` (no rows, no columns). -/
def emptyDF : DF := ⟨false, []⟩

/-- The column access `df['Close']` (a Series aligned with the row index). -/
def closeCol (df : DF) : List (Option ℚ) := df.rows.map Row.close

/-- Last non-missing `Close` value of a group of rows (`GroupBy.last`
semantics: the last non-null entry, or NaN if none). -/
def lastValid (rows : List Row) : Option ℚ := (rows.filterMap Row.close).getLast?

/-- The weekly series `df.resample('W').last()['Close'].dropna()`: for each
calendar week that contains at least one row with a valid close, the last valid
close of that week.  (Weeks with rows but only NaN closes, and weeks with no
rows at all, are removed by the final `dropna`.)  Row dates are ascending in
every table the provider returns, so first-occurrence order of the week keys is
chronological order. -/
def weeklyCloses (df : DF) : List ℚ :=
  ((df.rows.map (fun r => r.date / 7)).dedup).filterMap
    (fun wk => lastValid (df.rows.filter (fun r => r.date / 7 == wk)))

/-- Successive differences `s.diff()` with the leading NaN removed (the
leading NaN is re-accounted for by the `none` that `rsi` prepends). -/
def diffs (s : List ℚ) : List ℚ := List.zipWith (fun b a => b - a) s.tail s

/-- Tail of `Series.ewm(alpha=a, adjust=False).mean()` after the seed:
`y = (1-a)*prev + a*x` recursively. -/
def ewmFrom (a : ℚ) : ℚ → List ℚ → List ℚ
  | _, [] => []
  | prev, x :: xs =>
    ((1 - a) * prev + a * x) :: ewmFrom a ((1 - a) * prev + a * x) xs

/-- `Series.ewm(alpha=a, adjust=False).mean()`: seeded by the first value,
then the one-pass recursion. -/
def ewm (a : ℚ) : List ℚ → List ℚ
  | [] => []
  | x :: xs => x :: ewmFrom a x xs

/-- `delta.clip(lower=0)`, i.e. `max x 0`, written with `if` so that it
evaluates by kernel reduction. -/
def clipLower0 (x : ℚ) : ℚ := if x < 0 then 0 else x

/-- `-delta.clip(upper=0)`, i.e. `max (-x) 0`, written with `if` so that it
evaluates by kernel reduction. -/
def negClipUpper0 (x : ℚ) : ℚ := if 0 < x then 0 else -x

/-- Smoothed average of up-moves: `delta.clip(lower=0).ewm(alpha=1/period,
adjust=False).mean()` (source lines 63-66), on the cleaned series. -/
def avgUp (s : List ℚ) : List ℚ :=
  ewm (1 / RSI_PERIOD) ((diffs s).map clipLower0)

/-- Smoothed average of down-moves: `(-delta.clip(upper=0)).ewm(alpha=1/period,
adjust=False).mean()` (source lines 65-67), on the cleaned series. -/
def avgDown (s : List ℚ) : List ℚ :=
  ewm (1 / RSI_PERIOD) ((diffs s).map negClipUpper0)

/-- One point of `100 - (100 / (1 + avg_up/avg_down))` under float semantics
for the two smoothed non-negative averages: denominator `0` with positive
numerator gives `rs = inf` hence RSI `100`; `0/0` gives NaN which propagates. -/
def rsiPoint (u d : Option ℚ) : Option ℚ :=
  match u, d with
  | some u, some d =>
    if d = 0 then (if u = 0 then none else some 100)
    else some (100 - 100 / (1 + u / d))
  | _, _ => none

/-- The `rsi` helper (source lines 59-70): drop NaNs, return the empty series
on empty input, otherwise the leading NaN from `diff` followed by the pointwise
RSI of the smoothed averages. -/
def rsi (series : List (Option ℚ)) : List (Option ℚ) :=
  let s := series.filterMap id
  if s.isEmpty then []
  else none :: List.zipWith (fun u d => rsiPoint (some u) (some d)) (avgUp s) (avgDown s)

/-- Python `round(x, 2)` modelled as rounding to the nearest multiple of
`1/100`. -/
def round2 (q : ℚ) : ℚ := (round (q * 100) : ℤ) / 100

/-- The chained comparison `40 <= x <= 60` from the signal block (source line
159); every comparison with NaN is false. -/
def between (x : Option ℚ) : Bool :=
  match x with
  | none => false
  | some v => decide (40 ≤ v) && decide (v ≤ 60)

/-- Comparison `x > c` under float semantics: false when `x` is NaN. -/
def gtNaN (x : Option ℚ) (c : ℚ) : Bool :=
  match x with
  | none => false
  | some v => decide (c < v)

/-- Comparison `x < c` under float semantics: false when `x` is NaN. -/
def ltNaN (x : Option ℚ) (c : ℚ) : Bool :=
  match x with
  | none => false
  | some v => decide (v < c)

/-- One classified card entry: signal label, card color and conflict marker. -/
structure Sig where
  label : String
  color : String
  cross : Bool
deriving DecidableEq

/-- The signal block of `analyze_universe` (source lines 159-173): the
first-match-wins decision chain over the (rounded) daily and weekly RSI. -/
def classify (d w : Option ℚ) : Sig :=
  if gtNaN d 60 && between w then ⟨"Conflict", PALETTE_gray, true⟩
  else if gtNaN w 60 && between d then ⟨"Conflict", PALETTE_gray, true⟩
  else if gtNaN d 60 && gtNaN w 60 then ⟨"Buy", PALETTE_green, false⟩
  else if ltNaN d 40 && ltNaN w 40 then ⟨"Sell", PALETTE_red, false⟩
  else if between d && between w then ⟨"Neutral", PALETTE_yellow, false⟩
  else ⟨"Neutral", PALETTE_yellow, false⟩

/-- The last `n` entries of a list (`s.iloc[-n:]`, `s.tail(n)`). -/
def lastN (n : Nat) (l : List α) : List α := l.drop (l.length - n)

/-- Arithmetic mean of a list of reals (`Series.mean()`); `0` on the empty
list, matching the `0/0 = 0` convention only where the source never divides by
zero. -/
noncomputable def listMean (l : List ℝ) : ℝ := l.sum / l.length

/-- Population standard deviation `Series.std(ddof=0)`: the square root of the
mean squared deviation from the mean. -/
noncomputable def popStd (l : List ℝ) : ℝ :=
  Real.sqrt ((l.map (fun x => (x - listMean l) ^ 2)).sum / l.length)

/-- Log returns `np.log(s / s.shift(1)).dropna()`: the shifted division has a
leading NaN which the `dropna` removes, leaving `ln(price[t] / price[t-1])` for
each consecutive pair.  (Prices are positive by the PriceBar data-model
invariant, so no further NaNs arise from the logarithm.) -/
noncomputable def logReturns (s : List ℚ) : List ℝ :=
  List.zipWith (fun (cur prev : ℚ) => Real.log ((cur : ℝ) / (prev : ℝ))) s.tail s

/-- The `annual_vol` helper (source lines 72-80): drop NaNs, require at least
10 observations, truncate to the last `VOL_DAYS` observations when at least
that long, require at least 2 log returns, return population standard
deviation times `sqrt 252`.  `none` models the `float("nan")` returns. -/
noncomputable def annual_vol (series : List (Option ℚ)) : Option ℝ :=
  let s := series.filterMap id
  if s.length < 10 then none
  else
    let s2 := if VOL_DAYS ≤ s.length then lastN VOL_DAYS s else s
    let log_ret := logReturns s2
    if log_ret.length < 2 then none
    else some (popStd log_ret * Real.sqrt 252)

/-- Modelled from the spec (§4.3 Volatility Engine), for the refinement check
of the volatility contract: drop missing values; fewer than 10 observations
gives undefined; truncate to the most recent 252 observations if longer;
log returns `ln(price[t]/price[t-1])` over the truncated window dropping the
first undefined return; fewer than 2 valid log returns gives undefined;
otherwise the population standard deviation (divide by N) of the log returns
times `√252`. -/
noncomputable def annualVolSpec (series : List (Option ℚ)) : Option ℝ :=
  let s := series.filterMap id
  if s.length < 10 then none
  else
    let w := if VOL_DAYS < s.length then lastN VOL_DAYS s else s
    let rets := (w.zip w.tail).map (fun (p : ℚ × ℚ) => Real.log ((p.2 : ℝ) / (p.1 : ℝ)))
    if rets.length < 2 then none
    else
      some (Real.sqrt ((rets.map (fun x => (x - listMean rets) ^ 2)).sum / rets.length)
        * Real.sqrt 252)

/-- The external market-data collaborator (`yfinance`), as an oracle.  Each
fallible call site of `fetch_all` is one field; `none` models an exception
raised at that call site. -/
structure Provider where
  /-- Whether the batch `yf.download(tickers, ...)` call succeeds. -/
  batchOk : Bool
  /-- Extraction `raw[t].dropna(how='all')` with parsed dates, per ticker;
  `none` models a raised exception (e.g. `KeyError`) for that ticker. -/
  batch : String → Option DF
  /-- The whole raw table, returned unchanged when `len(tickers) == 1`. -/
  batchSingle : DF
  /-- The isolated fallback `yf.download(t, ...)` per ticker; `none` models a
  raised exception. -/
  single : String → Option DF
  /-- The best-effort `yf.Ticker(tk).info` display name; `none` models a
  failure or a missing name (the code then uses `""`). -/
  displayName : String → Option String

/-- The per-ticker body of the `fetch_all` loop (source lines 96-107): use the
batch extraction; on failure fall back to one isolated retrieval; on total
failure produce the empty table.  The second component records the isolated
retrievals performed for this ticker. -/
def fetchOne (P : Provider) (t : String) : DF × List String :=
  match P.batch t with
  | some df => (df, [])
  | none =>
    match P.single t with
    | some df => (df, [t])
    | none => (emptyDF, [t])

/-- The cached `fetch_all` (source lines 85-108): on a batch download failure
return the empty map; with exactly one ticker return the raw table unsplit;
otherwise run the per-ticker extraction-with-fallback loop.  The first
component is the price map (as an association list in ticker order), the
second the list of isolated single-ticker retrievals performed. -/
def fetch_all (P : Provider) (tickers : List String) : List (String × DF) × List String :=
  if !P.batchOk then ([], [])
  else if tickers.length == 1 then
    (tickers.map (fun t => (t, P.batchSingle)), [])
  else
    (tickers.map (fun t => (t, (fetchOne P t).1)),
     (tickers.map (fun t => (fetchOne P t).2)).flatten)

/-- Dictionary access `price_map.get(tk, pd.DataFrame())`. -/
def pmGet (pm : List (String × DF)) (tk : String) : DF :=
  match pm.find? (fun p => p.1 == tk) with
  | some p => p.2
  | none => emptyDF

/-- One entry of the `selected` list built by `analyze_universe`
(source lines 147-154). -/
structure Candidate where
  ticker : String
  company : String
  daily_rsi : Option ℚ
  weekly_rsi : Option ℚ
  volatility : ℝ
  series_daily : List ℚ

/-- The volatility scan of `analyze_universe` (source lines 116-119): skip
tables that are empty or lack a `Close` column, pair the rest with their
(possibly NaN) annualized volatility. -/
noncomputable def volPairs (pm : List (String × DF)) : List (String × Option ℝ) :=
  pm.filterMap (fun p =>
    if p.2.rows.isEmpty || !p.2.hasClose then none
    else some (p.1, annual_vol (closeCol p.2)))

/-- The NaN filter `[x for x in vol_list if not np.isnan(x[1])]`
(source line 120). -/
noncomputable def volList (pm : List (String × DF)) : List (String × ℝ) :=
  (volPairs pm).filterMap (fun p => p.2.map (fun v => (p.1, v)))

/-- The stable ascending sort `vol_list.sort(key=lambda x: x[1])` (source line
121; Python `list.sort` is a stable sort). -/
noncomputable def sortVol (l : List (String × ℝ)) : List (String × ℝ) :=
  l.mergeSort (fun a b => decide (a.2 ≤ b.2))

/-- The per-candidate body of the selection loop (source lines 126-154): skip
on an empty or `Close`-less table, fewer than 40 daily observations, fewer
than 8 weekly observations, or a failing latest-RSI extraction (the
`try/except` around `float(rsi(...).iloc[-1])`, which raises exactly when the
RSI series is empty; `float` of a NaN does not raise).  Otherwise build the
candidate: best-effort company name, latest RSI values rounded to 2 digits,
the volatility score, and the last 40 daily closes. -/
def tryCandidate (P : Provider) (pm : List (String × DF)) (tk : String) (vol : ℝ) :
    Option Candidate :=
  let df := pmGet pm tk
  if df.rows.isEmpty || !df.hasClose then none
  else
    let daily := (closeCol df).filterMap id
    if daily.length < 40 then none
    else
      let weekly := weeklyCloses df
      if weekly.length < 8 then none
      else
        match (rsi (daily.map some)).getLast?, (rsi (weekly.map some)).getLast? with
        | some d, some w =>
          some { ticker := tk, company := (P.displayName tk).getD "",
                 daily_rsi := d.map round2, weekly_rsi := w.map round2,
                 volatility := vol, series_daily := lastN 40 daily }
        | _, _ => none

/-- The selection loop of `analyze_universe` (source lines 122-154): walk the
ascending volatility list, stop once `N_CARDS` candidates are collected,
append each surviving candidate. -/
def selectLoop (P : Provider) (pm : List (String × DF)) :
    List (String × ℝ) → List Candidate → List Candidate
  | [], acc => acc
  | p :: rest, acc =>
    if N_CARDS ≤ acc.length then acc
    else
      match tryCandidate P pm p.1 p.2 with
      | some c => selectLoop P pm rest (acc ++ [c])
      | none => selectLoop P pm rest acc

/-- The re-sort `pd.DataFrame(selected).sort_values("volatility")` (source
line 155), modelled as a stable ascending sort by the volatility column. -/
noncomputable def sortCand (l : List Candidate) : List Candidate :=
  l.mergeSort (fun a b => decide (a.volatility ≤ b.volatility))

/-- One row of the final result table, with the signal columns attached
(source lines 174-176). -/
structure Card extends Candidate where
  signal : String
  color : String
  cross : Bool

/-- The NIFTY50 ticker universe from the source (45 symbols). -/
def NIFTY50 : List String := [
  "RELIANCE.NS", "TCS.NS", "HDFCBANK.NS", "INFY.NS", "ICICIBANK.NS", "KOTAKBANK.NS",
  "LT.NS", "ITC.NS", "SBIN.NS", "HCLTECH.NS", "AXISBANK.NS", "BHARTIARTL.NS", "BAJAJ-AUTO.NS",
  "ASIANPAINT.NS", "HINDUNILVR.NS", "MARUTI.NS", "SUNPHARMA.NS", "NTPC.NS", "M&M.NS",
  "BAJFINANCE.NS", "ULTRACEMCO.NS", "TITAN.NS", "POWERGRID.NS", "ONGC.NS", "HDFCLIFE.NS",
  "NESTLEIND.NS", "DIVISLAB.NS", "WIPRO.NS", "BRITANNIA.NS", "TECHM.NS", "COALINDIA.NS",
  "SBILIFE.NS", "ADANIENT.NS", "ADANIPORTS.NS", "TATASTEEL.NS", "BPCL.NS", "INDUSINDBK.NS",
  "GRASIM.NS", "EICHERMOT.NS", "JSWSTEEL.NS", "DRREDDY.NS", "TATAMOTORS.NS", "CIPLA.NS",
  "SHREECEM.NS", "HINDALCO.NS"]

/-- The pipeline `analyze_universe` (source lines 113-177): fetch the
universe, rank by defined volatility ascending, run the selection loop,
re-sort by volatility, truncate to `N_CARDS`, and attach the signal columns
computed by the first-match-wins decision chain. -/
noncomputable def analyze_universe (P : Provider) : List Card :=
  let pm := (fetch_all P NIFTY50).1
  let selected := selectLoop P pm (sortVol (volList pm)) []
  let final := (sortCand selected).take N_CARDS
  final.map (fun c =>
    let sig := classify c.daily_rsi c.weekly_rsi
    { toCandidate := c, signal := sig.label, color := sig.color, cross := sig.cross })

/-- The module boundary (source lines 341-346): the caller receives either the
distinct empty-result condition (`df.empty`, surfaced as the warning plus
`st.stop()`), modelled as `none`, or the populated table. -/
noncomputable def pipelineBoundary (P : Provider) : Option (List Card) :=
  let df := analyze_universe P
  if df.isEmpty then none else some df

/-! ### Helper lemmas -/

theorem length_ewmFrom (a p : ℚ) (l : List ℚ) : (ewmFrom a p l).length = l.length := by
  induction l generalizing p with
  | nil => rfl
  | cons x xs ih => simp [ewmFrom, ih]

theorem length_ewm (a : ℚ) (l : List ℚ) : (ewm a l).length = l.length := by
  cases l with
  | nil => rfl
  | cons x xs => simp [ewm, length_ewmFrom]

theorem length_diffs (s : List ℚ) : (diffs s).length = s.length - 1 := by
  simp only [diffs, List.length_zipWith, List.length_tail]
  omega

theorem length_avgUp (s : List ℚ) : (avgUp s).length = s.length - 1 := by
  simp [avgUp, length_ewm, length_diffs]

theorem length_avgDown (s : List ℚ) : (avgDown s).length = s.length - 1 := by
  simp [avgDown, length_ewm, length_diffs]

theorem rsi_eq_cons (series : List (Option ℚ)) (h : series.filterMap id ≠ []) :
    rsi series = none ::
      List.zipWith (fun u d => rsiPoint (some u) (some d))
        (avgUp (series.filterMap id)) (avgDown (series.filterMap id)) := by
  rw [rsi]
  simp [h]

theorem rsi_length (series : List (Option ℚ)) (h : series.filterMap id ≠ []) :
    (rsi series).length = (series.filterMap id).length := by
  rw [rsi_eq_cons series h]
  have hlen : (series.filterMap id).length ≠ 0 := by
    simpa [List.length_eq_zero] using h
  simp [length_avgUp, length_avgDown]
  omega

theorem ewmFrom_nonneg (a p : ℚ) (ha : 0 ≤ a) (ha1 : a ≤ 1) (hp : 0 ≤ p)
    (l : List ℚ) (hl : ∀ x ∈ l, 0 ≤ x) : ∀ y ∈ ewmFrom a p l, 0 ≤ y := by
  induction l generalizing p with
  | nil => simp [ewmFrom]
  | cons x xs ih =>
    have hx : 0 ≤ x := hl x (by simp)
    have hy : 0 ≤ (1 - a) * p + a * x := by
      have h1 : 0 ≤ (1 - a) * p := mul_nonneg (by linarith) hp
      have h2 : 0 ≤ a * x := mul_nonneg ha hx
      linarith
    intro y hy2
    simp only [ewmFrom, List.mem_cons] at hy2
    rcases hy2 with rfl | hy2
    · exact hy
    · exact ih _ hy (fun z hz => hl z (by simp [hz])) y hy2

theorem ewm_nonneg (a : ℚ) (ha : 0 ≤ a) (ha1 : a ≤ 1)
    (l : List ℚ) (hl : ∀ x ∈ l, 0 ≤ x) : ∀ y ∈ ewm a l, 0 ≤ y := by
  cases l with
  | nil => simp [ewm]
  | cons x xs =>
    intro y hy
    simp only [ewm, List.mem_cons] at hy
    rcases hy with rfl | hy
    · exact hl y (by simp)
    · exact ewmFrom_nonneg a x ha ha1 (hl x (by simp)) xs
        (fun z hz => hl z (by simp [hz])) y hy

theorem avgUp_nonneg (s : List ℚ) : ∀ y ∈ avgUp s, 0 ≤ y := by
  apply ewm_nonneg _ (by norm_num [RSI_PERIOD]) (by norm_num [RSI_PERIOD])
  intro x hx
  simp only [List.mem_map] at hx
  obtain ⟨z, _, rfl⟩ := hx
  simp only [clipLower0]
  split_ifs with h
  · exact le_refl 0
  · linarith

theorem avgDown_nonneg (s : List ℚ) : ∀ y ∈ avgDown s, 0 ≤ y := by
  apply ewm_nonneg _ (by norm_num [RSI_PERIOD]) (by norm_num [RSI_PERIOD])
  intro x hx
  simp only [List.mem_map] at hx
  obtain ⟨z, _, rfl⟩ := hx
  simp only [negClipUpper0]
  split_ifs with h
  · exact le_refl 0
  · linarith

theorem rsiPoint_bounds (u d : ℚ) (hu : 0 ≤ u) (hd : 0 ≤ d) (q : ℚ)
    (h : rsiPoint (some u) (some d) = some q) : 0 ≤ q ∧ q ≤ 100 := by
  simp only [rsiPoint] at h
  split_ifs at h with h1 h2
  · rw [Option.some_inj] at h
    subst h
    norm_num
  · rw [Option.some_inj] at h
    subst h
    have hdpos : 0 < d := lt_of_le_of_ne hd (Ne.symm h1)
    have hr : 0 ≤ u / d := div_nonneg hu hd
    have h1r : (1 : ℚ) ≤ 1 + u / d := by linarith
    have hpos : 0 < 100 / (1 + u / d) := by positivity
    have hle : 100 / (1 + u / d) ≤ 100 := by
      rw [div_le_iff₀ (by linarith)]
      nlinarith
    constructor <;> linarith

theorem rsiPoint_eq_none_iff (u d : ℚ) :
    rsiPoint (some u) (some d) = none ↔ d = 0 ∧ u = 0 := by
  simp only [rsiPoint]
  split_ifs with h1 h2 <;> simp_all

theorem zipWith_rsiPoint_bounds (us ds : List ℚ) (hu : ∀ u ∈ us, 0 ≤ u)
    (hd : ∀ d ∈ ds, 0 ≤ d) (q : ℚ)
    (h : some q ∈ List.zipWith (fun u d => rsiPoint (some u) (some d)) us ds) :
    0 ≤ q ∧ q ≤ 100 := by
  induction us generalizing ds with
  | nil => simp at h
  | cons u us ih =>
    cases ds with
    | nil => simp at h
    | cons d ds =>
      simp only [List.zipWith_cons_cons, List.mem_cons] at h
      rcases h with h | h
      · exact rsiPoint_bounds u d (hu u (by simp)) (hd d (by simp)) q h.symm
      · exact ih ds (fun z hz => hu z (by simp [hz])) (fun z hz => hd z (by simp [hz])) h

theorem classify_some_eq (d w : ℚ) :
    classify (some d) (some w) =
      if 60 < d ∧ 40 ≤ w ∧ w ≤ 60 then ⟨"Conflict", PALETTE_gray, true⟩
      else if 60 < w ∧ 40 ≤ d ∧ d ≤ 60 then ⟨"Conflict", PALETTE_gray, true⟩
      else if 60 < d ∧ 60 < w then ⟨"Buy", PALETTE_green, false⟩
      else if d < 40 ∧ w < 40 then ⟨"Sell", PALETTE_red, false⟩
      else ⟨"Neutral", PALETTE_yellow, false⟩ := by
  simp only [classify, gtNaN, between, ltNaN, Bool.and_eq_true, decide_eq_true_eq]
  split_ifs <;> rfl

/-- Claim C2: the signal classification follows the spec's priority table with
first match winning: (1) daily > 60 and weekly in [40,60] gives Conflict;
(2) weekly > 60 and daily in [40,60] gives Conflict; (3) both > 60 gives Buy;
(4) both < 40 gives Sell; (5) both in [40,60] gives Neutral; (6) anything else
gives Neutral.  The conflict marker is true exactly when rule 1 or 2 fires,
and the six concrete example pairs classify as the spec's table states. -/
theorem claim_C2 (d w : ℚ) :
    ((60 < d ∧ 40 ≤ w ∧ w ≤ 60) →
      classify (some d) (some w) = ⟨"Conflict", PALETTE_gray, true⟩) ∧
    (¬(60 < d ∧ 40 ≤ w ∧ w ≤ 60) → (60 < w ∧ 40 ≤ d ∧ d ≤ 60) →
      classify (some d) (some w) = ⟨"Conflict", PALETTE_gray, true⟩) ∧
    (¬(60 < d ∧ 40 ≤ w ∧ w ≤ 60) → ¬(60 < w ∧ 40 ≤ d ∧ d ≤ 60) →
      (60 < d ∧ 60 < w) →
      classify (some d) (some w) = ⟨"Buy", PALETTE_green, false⟩) ∧
    (¬(60 < d ∧ 40 ≤ w ∧ w ≤ 60) → ¬(60 < w ∧ 40 ≤ d ∧ d ≤ 60) →
      ¬(60 < d ∧ 60 < w) → (d < 40 ∧ w < 40) →
      classify (some d) (some w) = ⟨"Sell", PALETTE_red, false⟩) ∧
    (¬(60 < d ∧ 40 ≤ w ∧ w ≤ 60) → ¬(60 < w ∧ 40 ≤ d ∧ d ≤ 60) →
      ¬(60 < d ∧ 60 < w) → ¬(d < 40 ∧ w < 40) →
      (40 ≤ d ∧ d ≤ 60 ∧ 40 ≤ w ∧ w ≤ 60) →
      classify (some d) (some w) = ⟨"Neutral", PALETTE_yellow, false⟩) ∧
    (¬(60 < d ∧ 40 ≤ w ∧ w ≤ 60) → ¬(60 < w ∧ 40 ≤ d ∧ d ≤ 60) →
      ¬(60 < d ∧ 60 < w) → ¬(d < 40 ∧ w < 40) →
      ¬(40 ≤ d ∧ d ≤ 60 ∧ 40 ≤ w ∧ w ≤ 60) →
      classify (some d) (some w) = ⟨"Neutral", PALETTE_yellow, false⟩) ∧
    ((classify (some d) (some w)).cross = true ↔
      (60 < d ∧ 40 ≤ w ∧ w ≤ 60) ∨
      (¬(60 < d ∧ 40 ≤ w ∧ w ≤ 60) ∧ (60 < w ∧ 40 ≤ d ∧ d ≤ 60))) ∧
    classify (some 65) (some 50) = ⟨"Conflict", PALETTE_gray, true⟩ ∧
    classify (some 50) (some 65) = ⟨"Conflict", PALETTE_gray, true⟩ ∧
    classify (some 70) (some 75) = ⟨"Buy", PALETTE_green, false⟩ ∧
    classify (some 30) (some 25) = ⟨"Sell", PALETTE_red, false⟩ ∧
    classify (some 50) (some 50) = ⟨"Neutral", PALETTE_yellow, false⟩ ∧
    classify (some 75) (some 30) = ⟨"Neutral", PALETTE_yellow, false⟩ := by
  refine ⟨?_, ?_, ?_, ?_, ?_, ?_, ?_, ?_, ?_, ?_, ?_, ?_, ?_⟩
  · intro h
    rw [classify_some_eq, if_pos h]
  · intro h1 h2
    rw [classify_some_eq, if_neg h1, if_pos h2]
  · intro h1 h2 h3
    rw [classify_some_eq, if_neg h1, if_neg h2, if_pos h3]
  · intro h1 h2 h3 h4
    rw [classify_some_eq, if_neg h1, if_neg h2, if_neg h3, if_pos h4]
  · intro h1 h2 h3 h4 _
    rw [classify_some_eq, if_neg h1, if_neg h2, if_neg h3, if_neg h4]
  · intro h1 h2 h3 h4 _
    rw [classify_some_eq, if_neg h1, if_neg h2, if_neg h3, if_neg h4]
  · rw [classify_some_eq]
    split_ifs with h1 h2 h3 h4
    · exact iff_of_true rfl (Or.inl h1)
    · exact iff_of_true rfl (Or.inr ⟨h1, h2⟩)
    · exact iff_of_false (by simp) (fun hc => hc.elim h1 (fun hh => h2 hh.2))
    · exact iff_of_false (by simp) (fun hc => hc.elim h1 (fun hh => h2 hh.2))
    · exact iff_of_false (by simp) (fun hc => hc.elim h1 (fun hh => h2 hh.2))
  · simp only [classify, gtNaN, between, ltNaN]
    norm_num
  · simp only [classify, gtNaN, between, ltNaN]
    norm_num
  · simp only [classify, gtNaN, between, ltNaN]
    norm_num
  · simp only [classify, gtNaN, between, ltNaN]
    norm_num
  · simp only [classify, gtNaN, between, ltNaN]
    norm_num
  · simp only [classify, gtNaN, between, ltNaN]
    norm_num

theorem claim_C2_witness :
    classify (some 65) (some 50) = ⟨"Conflict", PALETTE_gray, true⟩ :=
  (claim_C2 65 50).1 (by norm_num)

/-- Claim C4 (corrected, counterexample): the output of `rsi` on the 2-point
input `[1, 2]` contains an undefined (NaN) value — the leading point that
`diff` turns into NaN — even though the input has 2 points, so "an undefined
value occurs only when the input has fewer than 2 points" fails. -/
theorem claim_C4_counterexample :
    none ∈ rsi [some 1, some 2] ∧ 2 ≤ ([some (1 : ℚ), some 2] : List (Option ℚ)).length := by
  constructor
  · norm_num [rsi, avgUp, avgDown, diffs, ewm, ewmFrom, clipLower0, negClipUpper0,
      rsiPoint, RSI_PERIOD, List.filterMap_cons]
  · norm_num

/-- Claim C4 (amended): every defined value of the `rsi` output is in
`[0, 100]`; undefined (NaN) values do occur for inputs of 2 or more points —
always at the leading position, and elsewhere exactly where both smoothed
averages are zero. -/
theorem claim_C4 (series : List (Option ℚ)) :
    (∀ q : ℚ, some q ∈ rsi series → 0 ≤ q ∧ q ≤ 100) ∧
    (series.filterMap id ≠ [] → (rsi series).head? = some none) ∧
    (∀ i : ℕ, (rsi series)[i + 1]? = some none →
      (avgUp (series.filterMap id))[i]? = some 0 ∧
      (avgDown (series.filterMap id))[i]? = some 0) := by
  refine ⟨?_, ?_, ?_⟩
  · intro q hq
    by_cases hs : series.filterMap id = []
    · rw [rsi] at hq
      simp [hs] at hq
    · rw [rsi_eq_cons series hs] at hq
      simp only [List.mem_cons] at hq
      rcases hq with hq | hq
      · exact absurd hq (by simp)
      · exact zipWith_rsiPoint_bounds _ _ (avgUp_nonneg _) (avgDown_nonneg _) q hq
  · intro hs
    rw [rsi_eq_cons series hs]
    rfl
  · intro i hi
    by_cases hs : series.filterMap id = []
    · rw [rsi] at hi
      simp [hs] at hi
    · rw [rsi_eq_cons series hs] at hi
      rw [List.getElem?_cons_succ] at hi
      rw [List.getElem?_zipWith] at hi
      rcases hu : (avgUp (series.filterMap id))[i]? with _ | u <;> rw [hu] at hi
      · simp at hi
      · rcases hd : (avgDown (series.filterMap id))[i]? with _ | d <;> rw [hd] at hi
        · simp at hi
        · simp only [Option.some_inj] at hi
          obtain ⟨hd0, hu0⟩ := (rsiPoint_eq_none_iff u d).mp hi
          subst hd0
          subst hu0
          exact ⟨rfl, rfl⟩

theorem claim_C4_witness : 0 ≤ (100 : ℚ) ∧ (100 : ℚ) ≤ 100 :=
  (claim_C4 [some 1, some 2]).1 100 (by
    norm_num [rsi, avgUp, avgDown, diffs, ewm, ewmFrom, clipLower0, negClipUpper0,
      rsiPoint, RSI_PERIOD, List.filterMap_cons])

/-- Claim C9 (corrected, counterexample): on the 3-point input `[3, 4, 5]` the
`rsi` output has 3 points, not the 2 points that "exactly one fewer leading
point than the input" would require: pandas `diff` keeps the leading position
as NaN rather than dropping it. -/
theorem claim_C9_counterexample :
    (rsi [some 3, some 4, some 5]).length = 3 ∧
    (([some (3 : ℚ), some 4, some 5] : List (Option ℚ)).filterMap id).length - 1 = 2 ∧
    (3 : ℕ) ≠ 2 := by
  refine ⟨?_, by decide, by decide⟩
  rw [rsi_length _ (by decide)]
  decide

/-- Claim C9 (amended): for every non-empty cleaned input series the `rsi`
output is aligned to the input with the same number of points, its leading
point being undefined (NaN) rather than absent; and the latest daily and
weekly values consumed by the selection loop are stored rounded to 2 decimal
digits (NaN staying NaN). -/
theorem claim_C9 (series : List (Option ℚ)) :
    (series.filterMap id ≠ [] →
      (rsi series).length = (series.filterMap id).length ∧
      (rsi series).head? = some none) ∧
    (∀ (P : Provider) (pm : List (String × DF)) (tk : String) (vol : ℝ) (c : Candidate),
      tryCandidate P pm tk vol = some c →
      ∃ d w : Option ℚ,
        (rsi (((closeCol (pmGet pm tk)).filterMap id).map some)).getLast? = some d ∧
        (rsi ((weeklyCloses (pmGet pm tk)).map some)).getLast? = some w ∧
        c.daily_rsi = d.map round2 ∧ c.weekly_rsi = w.map round2) := by
  constructor
  · intro hs
    refine ⟨rsi_length series hs, ?_⟩
    rw [rsi_eq_cons series hs]
    rfl
  · intro P pm tk vol c h
    simp only [tryCandidate] at h
    split_ifs at h with h1 h2 h3
    rcases hd : (rsi (((closeCol (pmGet pm tk)).filterMap id).map some)).getLast? with _ | d <;>
      rw [hd] at h
    · simp at h
    · rcases hw : (rsi ((weeklyCloses (pmGet pm tk)).map some)).getLast? with _ | w <;>
        rw [hw] at h
      · simp at h
      · rw [Option.some_inj] at h
        subst h
        exact ⟨d, w, rfl, rfl, rfl, rfl⟩

theorem claim_C9_witness :
    (rsi [some 3, some 4]).length = (([some (3 : ℚ), some 4] : List (Option ℚ)).filterMap id).length ∧
    (rsi [some 3, some 4]).head? = some none :=
  (claim_C9 [some 3, some 4]).1 (by decide)

theorem zipWith_sub_replicate (m k : Nat) (c : ℚ) :
    List.zipWith (fun b a => b - a) (List.replicate m c) (List.replicate k c) =
      List.replicate (min m k) 0 := by
  induction m generalizing k with
  | zero => simp
  | succ m ih =>
    cases k with
    | zero => simp
    | succ k => simp [List.replicate_succ, ih, Nat.succ_min_succ]

theorem diffs_replicate (n : Nat) (c : ℚ) :
    diffs (List.replicate n c) = List.replicate (n - 1) 0 := by
  rw [diffs, List.tail_replicate, zipWith_sub_replicate]
  congr 1
  omega

theorem ewmFrom_zero (a : ℚ) (k : Nat) :
    ewmFrom a 0 (List.replicate k 0) = List.replicate k 0 := by
  induction k with
  | zero => rfl
  | succ m ih => simp [List.replicate_succ, ewmFrom, ih]

theorem ewm_zero (a : ℚ) (k : Nat) : ewm a (List.replicate k 0) = List.replicate k 0 := by
  cases k with
  | zero => rfl
  | succ m => simp [List.replicate_succ, ewm, ewmFrom_zero]

theorem avgUp_replicate (n : Nat) (c : ℚ) :
    avgUp (List.replicate n c) = List.replicate (n - 1) 0 := by
  rw [avgUp, diffs_replicate, List.map_replicate]
  simp only [clipLower0, lt_self_iff_false, if_false]
  exact ewm_zero _ _

theorem avgDown_replicate (n : Nat) (c : ℚ) :
    avgDown (List.replicate n c) = List.replicate (n - 1) 0 := by
  rw [avgDown, diffs_replicate, List.map_replicate]
  simp only [negClipUpper0, lt_self_iff_false, if_false, neg_zero]
  exact ewm_zero _ _

theorem rsi_replicate (n : Nat) (c : ℚ) (hn : n ≠ 0) :
    rsi (List.replicate n (some c)) = List.replicate n none := by
  have hfm : (List.replicate n (some c)).filterMap id = List.replicate n c :=
    List.filterMap_replicate_of_some rfl
  have hne : (List.replicate n c).isEmpty = false := by
    cases n with
    | zero => exact absurd rfl hn
    | succ m => rfl
  rw [rsi]
  simp only [hfm, hne, Bool.false_eq_true, if_false]
  rw [avgUp_replicate, avgDown_replicate, List.zipWith_replicate']
  have hpt : rsiPoint (some (0 : ℚ)) (some (0 : ℚ)) = none := by simp [rsiPoint]
  rw [hpt, ← List.replicate_succ]
  congr 1
  omega

theorem mem_weeklyCloses (df : DF) (x : ℚ) (hx : x ∈ weeklyCloses df) :
    some x ∈ closeCol df := by
  simp only [weeklyCloses, List.mem_filterMap] at hx
  obtain ⟨wk, _, hlast⟩ := hx
  rw [lastValid] at hlast
  have hmem := List.mem_of_getLast?_eq_some hlast
  simp only [List.mem_filterMap] at hmem
  obtain ⟨r, hr, hrc⟩ := hmem
  have hr2 : r ∈ df.rows := (List.mem_filter.mp hr).1
  rw [closeCol]
  exact List.mem_map.mpr ⟨r, hr2, hrc⟩

theorem rows_ne_nil_of_daily (df : DF) (h40 : 40 ≤ ((closeCol df).filterMap id).length) :
    df.rows.isEmpty = false := by
  rw [List.isEmpty_eq_false]
  intro hnil
  rw [closeCol, hnil] at h40
  simp at h40

theorem daily_eq_replicate (df : DF) (cval : ℚ)
    (hconst : ∀ q : ℚ, some q ∈ closeCol df → q = cval) :
    (closeCol df).filterMap id =
      List.replicate ((closeCol df).filterMap id).length cval := by
  apply List.eq_replicate_length.mpr
  intro b hb
  obtain ⟨o, ho, hid⟩ := List.mem_filterMap.mp hb
  apply hconst
  cases o with
  | none => exact absurd hid (by simp)
  | some v =>
    obtain rfl : v = b := by simpa using hid
    exact ho

theorem weekly_eq_replicate (df : DF) (cval : ℚ)
    (hconst : ∀ q : ℚ, some q ∈ closeCol df → q = cval) :
    weeklyCloses df = List.replicate (weeklyCloses df).length cval := by
  apply List.eq_replicate_length.mpr
  intro b hb
  exact hconst b (mem_weeklyCloses df b hb)

theorem getLast?_rsi_const (n : Nat) (c : ℚ) (l : List ℚ)
    (hl : l = List.replicate n c) (hn : n ≠ 0) :
    (rsi (l.map some)).getLast? = some none := by
  rw [hl, List.map_replicate, rsi_replicate n c hn, List.getLast?_replicate, if_neg hn]

/-- The selection-loop body on a ticker whose table has a `Close` column, all
valid closes equal, at least 40 daily and 8 weekly observations: the ticker is
accepted as a candidate whose latest daily and weekly RSI are NaN. -/
theorem tryCandidate_const (P : Provider) (pm : List (String × DF)) (tk : String)
    (vol : ℝ) (cval : ℚ)
    (hc : (pmGet pm tk).hasClose = true)
    (hconst : ∀ q : ℚ, some q ∈ closeCol (pmGet pm tk) → q = cval)
    (h40 : 40 ≤ ((closeCol (pmGet pm tk)).filterMap id).length)
    (h8 : 8 ≤ (weeklyCloses (pmGet pm tk)).length) :
    tryCandidate P pm tk vol = some
      { ticker := tk, company := (P.displayName tk).getD "",
        daily_rsi := none, weekly_rsi := none, volatility := vol,
        series_daily := lastN 40 ((closeCol (pmGet pm tk)).filterMap id) } := by
  have hrows := rows_ne_nil_of_daily (pmGet pm tk) h40
  have hdlast : (rsi (((closeCol (pmGet pm tk)).filterMap id).map some)).getLast? = some none :=
    getLast?_rsi_const _ cval _ (daily_eq_replicate _ cval hconst) (by omega)
  have hwlast : (rsi ((weeklyCloses (pmGet pm tk)).map some)).getLast? = some none :=
    getLast?_rsi_const _ cval _ (weekly_eq_replicate _ cval hconst) (by omega)
  rw [tryCandidate]
  simp only [hrows, hc, Bool.not_true, Bool.or_false, Bool.false_eq_true, if_false,
    if_neg (by omega : ¬((closeCol (pmGet pm tk)).filterMap id).length < 40),
    if_neg (by omega : ¬(weeklyCloses (pmGet pm tk)).length < 8),
    hdlast, hwlast]
  rfl

/-- A concrete constant price table: 40 rows, one per calendar week, every
close equal to 5. -/
def constDF : DF := ⟨true, (List.range 40).map (fun i => ⟨7 * i, some 5⟩)⟩

/-- A concrete provider oracle whose batch extraction returns the constant
table for every ticker. -/
def P0 : Provider := ⟨true, fun _ => some constDF, constDF, fun _ => none, fun _ => none⟩

theorem constDF_const (q : ℚ) (hq : some q ∈ closeCol (pmGet [("T", constDF)] "T")) :
    q = 5 := by
  have hcc : closeCol (pmGet [("T", constDF)] "T") = List.replicate 40 (some 5) := by decide
  rw [hcc] at hq
  simpa using List.eq_of_mem_replicate hq

/-- Claim C10: for a ticker whose cleaned daily closing series has at least 40
points but is constant (and whose weekly resample has at least 8 points), the
pipeline includes it as a candidate rather than skipping it: both smoothed
averages are identically zero, the latest daily and weekly RSI are NaN, the
float conversion does not raise (the accepting branch of the selection loop is
taken), and the candidate is classified Neutral by the fallback rule because
every numeric comparison with NaN is false. -/
theorem claim_C10 (P : Provider) (pm : List (String × DF)) (tk : String) (vol : ℝ)
    (cval : ℚ)
    (hc : (pmGet pm tk).hasClose = true)
    (hconst : ∀ q : ℚ, some q ∈ closeCol (pmGet pm tk) → q = cval)
    (h40 : 40 ≤ ((closeCol (pmGet pm tk)).filterMap id).length)
    (h8 : 8 ≤ (weeklyCloses (pmGet pm tk)).length) :
    avgUp ((closeCol (pmGet pm tk)).filterMap id) =
      List.replicate (((closeCol (pmGet pm tk)).filterMap id).length - 1) 0 ∧
    avgDown ((closeCol (pmGet pm tk)).filterMap id) =
      List.replicate (((closeCol (pmGet pm tk)).filterMap id).length - 1) 0 ∧
    ∃ c : Candidate, tryCandidate P pm tk vol = some c ∧
      c.daily_rsi = none ∧ c.weekly_rsi = none ∧
      classify c.daily_rsi c.weekly_rsi = ⟨"Neutral", PALETTE_yellow, false⟩ := by
  refine ⟨?_, ?_, ?_⟩
  · conv_lhs => rw [daily_eq_replicate _ cval hconst]
    rw [avgUp_replicate]
  · conv_lhs => rw [daily_eq_replicate _ cval hconst]
    rw [avgDown_replicate]
  · exact ⟨_, tryCandidate_const P pm tk vol cval hc hconst h40 h8, rfl, rfl,
      show classify none none = ⟨"Neutral", PALETTE_yellow, false⟩ by decide⟩

theorem claim_C10_witness :
    avgUp ((closeCol (pmGet [("T", constDF)] "T")).filterMap id) =
      List.replicate (((closeCol (pmGet [("T", constDF)] "T")).filterMap id).length - 1) 0 :=
  (claim_C10 P0 [("T", constDF)] "T" 0 5 (by decide) constDF_const (by decide) (by decide)).1

/-- Claim C5 (corrected, counterexample): on the concrete constant table both
smoothed averages are zero, so the latest RSI is the NaN marker — and the
downstream Universe Selector does not check it before use: the ticker is
accepted as a candidate carrying the NaN daily and weekly RSI, which then
reaches the signal classification (as Neutral) instead of being rejected. -/
theorem claim_C5_counterexample :
    (tryCandidate P0 [("T", constDF)] "T" 0).map (fun c => c.daily_rsi) = some none ∧
    (tryCandidate P0 [("T", constDF)] "T" 0).map (fun c => classify c.daily_rsi c.weekly_rsi) =
      some ⟨"Neutral", PALETTE_yellow, false⟩ := by
  rw [tryCandidate_const P0 [("T", constDF)] "T" 0 5 (by decide) constDF_const
    (by decide) (by decide)]
  exact ⟨rfl, by decide⟩

/-- Claim C5 (amended): where the smoothed down-average is zero the RSI
computation is total — no division-by-zero crash — and yields the saturation
value 100 when the up-average is positive, or the NaN marker when both
averages are zero; but the downstream Universe Selector does not check the NaN
marker before using it: its try/except raises only for an empty RSI series,
the float conversion of NaN succeeds, and a candidate whose latest daily RSI
is NaN is included with the NaN stored. -/
theorem claim_C5 :
    (∀ u : ℚ, 0 < u → rsiPoint (some u) (some 0) = some 100) ∧
    rsiPoint (some 0) (some 0) = none ∧
    (∀ (P : Provider) (pm : List (String × DF)) (tk : String) (vol : ℝ),
      (pmGet pm tk).rows.isEmpty = false → (pmGet pm tk).hasClose = true →
      40 ≤ ((closeCol (pmGet pm tk)).filterMap id).length →
      8 ≤ (weeklyCloses (pmGet pm tk)).length →
      (rsi (((closeCol (pmGet pm tk)).filterMap id).map some)).getLast? = some none →
      ∀ w : Option ℚ,
        (rsi ((weeklyCloses (pmGet pm tk)).map some)).getLast? = some w →
        ∃ c : Candidate, tryCandidate P pm tk vol = some c ∧ c.daily_rsi = none) := by
  refine ⟨?_, ?_, ?_⟩
  · intro u hu
    simp [rsiPoint, hu.ne']
  · simp [rsiPoint]
  · intro P pm tk vol h1 h2 h3 h4 hd w hw
    rw [tryCandidate]
    simp only [h1, h2, Bool.not_true, Bool.or_false, Bool.false_eq_true, if_false,
      if_neg (by omega : ¬((closeCol (pmGet pm tk)).filterMap id).length < 40),
      if_neg (by omega : ¬(weeklyCloses (pmGet pm tk)).length < 8),
      hd, hw]
    exact ⟨_, rfl, rfl⟩

theorem claim_C5_witness : rsiPoint (some 1) (some 0) = some 100 :=
  claim_C5.1 1 (by norm_num)

theorem lastN_of_length_le {α : Type} (n : Nat) (l : List α) (h : l.length ≤ n) :
    lastN n l = l := by
  rw [lastN, Nat.sub_eq_zero_of_le h, List.drop_zero]

theorem zipWith_replicate_min {α β γ : Type} (f : α → β → γ) (m k : Nat) (a : α) (b : β) :
    List.zipWith f (List.replicate m a) (List.replicate k b) =
      List.replicate (min m k) (f a b) := by
  induction m generalizing k with
  | zero => simp
  | succ m ih =>
    cases k with
    | zero => simp
    | succ k => simp [List.replicate_succ, ih, Nat.succ_min_succ]

theorem logReturns_replicate (m : Nat) (c : ℚ) (hc : c ≠ 0) :
    logReturns (List.replicate m c) = List.replicate (m - 1) 0 := by
  rw [logReturns, List.tail_replicate, zipWith_replicate_min]
  have hlog : Real.log ((c : ℝ) / (c : ℝ)) = 0 := by
    rw [div_self (by exact_mod_cast hc), Real.log_one]
  rw [hlog]
  congr 1
  omega

theorem popStd_replicate_zero (k : Nat) : popStd (List.replicate k 0) = 0 := by
  simp [popStd, listMean, List.map_replicate, List.sum_replicate]

theorem annual_vol_eq_spec (series : List (Option ℚ)) :
    annual_vol series = annualVolSpec series := by
  simp only [annual_vol, annualVolSpec]
  by_cases h10 : (series.filterMap id).length < 10
  · rw [if_pos h10, if_pos h10]
  · rw [if_neg h10, if_neg h10]
    have hw : (if VOL_DAYS ≤ (series.filterMap id).length
          then lastN VOL_DAYS (series.filterMap id) else series.filterMap id) =
        (if VOL_DAYS < (series.filterMap id).length
          then lastN VOL_DAYS (series.filterMap id) else series.filterMap id) := by
      rcases lt_trichotomy VOL_DAYS (series.filterMap id).length with h | h | h
      · rw [if_pos h.le, if_pos h]
      · rw [if_pos h.le, if_neg (by omega), lastN_of_length_le _ _ (by omega)]
      · rw [if_neg (by omega), if_neg (by omega)]
    rw [hw]
    have hrets : ∀ w : List ℚ, logReturns w =
        (w.zip w.tail).map (fun (p : ℚ × ℚ) => Real.log ((p.2 : ℝ) / (p.1 : ℝ))) := by
      intro w
      rw [logReturns, List.zip, List.map_zipWith, List.zipWith_comm]
    rw [hrets]
    rfl

theorem annual_vol_const (c : ℚ) (n : Nat) (hc : 0 < c) (hn : 10 ≤ n) :
    annual_vol (List.replicate n (some c)) = some 0 := by
  have hfm : (List.replicate n (some c)).filterMap id = List.replicate n c :=
    List.filterMap_replicate_of_some rfl
  simp only [annual_vol, hfm, List.length_replicate, VOL_DAYS]
  rw [if_neg (by omega)]
  have hs2 : (if 252 ≤ n then lastN 252 (List.replicate n c) else List.replicate n c) =
      List.replicate (min 252 n) c := by
    split_ifs with h
    · rw [lastN, List.length_replicate, List.drop_replicate,
        show n - (n - 252) = min 252 n from by omega]
    · rw [show min 252 n = n from by omega]
  rw [hs2, logReturns_replicate _ c hc.ne', List.length_replicate,
    if_neg (by omega), popStd_replicate_zero, zero_mul]

/-- Claim C3: the volatility engine satisfies the spec's contract pointwise —
drop missing values; fewer than 10 observations undefined; truncate to the
most recent 252 observations when longer; log returns `ln(price[t]/price[t-1])`
over the truncated window dropping the first undefined return; fewer than 2
log returns undefined; otherwise the population standard deviation (divide by
N) of the log returns times `√252` — and a constant (positive) price series
with at least 10 points has volatility exactly 0. -/
theorem claim_C3 :
    (∀ series : List (Option ℚ), annual_vol series = annualVolSpec series) ∧
    (∀ (c : ℚ) (n : Nat), 0 < c → 10 ≤ n →
      annual_vol (List.replicate n (some c)) = some 0) :=
  ⟨annual_vol_eq_spec, fun c n hc hn => annual_vol_const c n hc hn⟩

theorem claim_C3_witness : annual_vol (List.replicate 10 (some 5)) = some 0 :=
  claim_C3.2 5 10 (by norm_num) (by norm_num)

/-- Claim C8: in a multi-ticker batch, a ticker whose batch extraction fails
triggers exactly one isolated single-ticker retrieval before giving up (none
when the extraction succeeds); on total failure the ticker is mapped to the
empty table rather than raising; and the downstream stages — the volatility
scan and the selection loop — skip tickers with empty tables instead of
failing the run. -/
theorem claim_C8 (P : Provider) (tickers : List String) :
    (P.batchOk = true → tickers.length ≠ 1 →
      (fetch_all P tickers).1 = tickers.map (fun t => (t, (fetchOne P t).1)) ∧
      (fetch_all P tickers).2 = (tickers.map (fun t => (fetchOne P t).2)).flatten) ∧
    (∀ (t : String) (df : DF), P.batch t = some df → fetchOne P t = (df, [])) ∧
    (∀ t : String, P.batch t = none → (fetchOne P t).2 = [t]) ∧
    (∀ t : String, P.batch t = none → P.single t = none → (fetchOne P t).1 = emptyDF) ∧
    (∀ tk : String, volPairs [(tk, emptyDF)] = []) ∧
    (∀ (pm : List (String × DF)) (tk : String) (vol : ℝ),
      pmGet pm tk = emptyDF → tryCandidate P pm tk vol = none) := by
  refine ⟨?_, ?_, ?_, ?_, ?_, ?_⟩
  · intro hok hlen
    rw [fetch_all, hok]
    have hb : (tickers.length == 1) = false := beq_eq_false_iff_ne.mpr hlen
    rw [hb]
    exact ⟨rfl, rfl⟩
  · intro t df h
    rw [fetchOne, h]
  · intro t h
    rw [fetchOne, h]
    rcases P.single t with _ | df <;> rfl
  · intro t h h2
    rw [fetchOne, h, h2]
  · intro tk
    simp [volPairs, emptyDF]
  · intro pm tk vol h
    rw [tryCandidate, h]
    rfl

/-- A concrete provider whose batch extraction fails for ticker `"A"` only,
with the isolated fallback succeeding for `"A"`. -/
def P1 : Provider :=
  ⟨true, fun t => if t == "A" then none else some constDF, constDF,
   fun t => if t == "A" then some constDF else none, fun _ => none⟩

theorem claim_C8_witness :
    (fetch_all P1 ["A", "B"]).1 = ["A", "B"].map (fun t => (t, (fetchOne P1 t).1)) ∧
    (fetch_all P1 ["A", "B"]).2 = (["A", "B"].map (fun t => (fetchOne P1 t).2)).flatten :=
  (claim_C8 P1 ["A", "B"]).1 rfl (by decide)

theorem sortVol_sorted (l : List (String × ℝ)) :
    (sortVol l).Pairwise (fun a b => a.2 ≤ b.2) := by
  rw [sortVol]
  refine List.Pairwise.imp ?_
    (@List.sorted_mergeSort (String × ℝ) (fun a b => decide (a.2 ≤ b.2)) ?_ ?_ l)
  · intro a b h
    simpa using h
  · intro a b c hab hbc
    simp only [decide_eq_true_eq] at hab hbc ⊢
    exact le_trans hab hbc
  · intro a b
    simpa using le_total a.2 b.2

theorem sortVol_perm (l : List (String × ℝ)) : (sortVol l).Perm l := by
  rw [sortVol]
  exact List.mergeSort_perm l _

theorem sortVol_stable (l : List (String × ℝ)) :
    (List.mergeSort l.enum (List.enumLE (fun a b => decide (a.2 ≤ b.2)))).map (·.2) =
      sortVol l := by
  rw [sortVol]
  exact List.mergeSort_enum

theorem sortVol_stable_pair (l : List (String × ℝ)) (a b : String × ℝ)
    (hab : a.2 ≤ b.2) (h : List.Sublist [a, b] l) : List.Sublist [a, b] (sortVol l) := by
  rw [sortVol]
  refine List.pair_sublist_mergeSort ?_ ?_ (by simpa using hab) h
  · intro x y z hxy hyz
    simp only [decide_eq_true_eq] at hxy hyz ⊢
    exact le_trans hxy hyz
  · intro x y
    simpa using le_total x.2 y.2

theorem sortVol_idem (l : List (String × ℝ)) : sortVol (sortVol l) = sortVol l := by
  conv_lhs => rw [sortVol]
  apply List.mergeSort_of_sorted
  exact (sortVol_sorted l).imp (fun hab => by simpa using hab)

theorem tryCandidate_fields (P : Provider) (pm : List (String × DF)) (tk : String)
    (vol : ℝ) (c : Candidate) (h : tryCandidate P pm tk vol = some c) :
    c.ticker = tk ∧ c.volatility = vol ∧
    40 ≤ ((closeCol (pmGet pm tk)).filterMap id).length ∧
    8 ≤ (weeklyCloses (pmGet pm tk)).length ∧
    (pmGet pm tk).rows.isEmpty = false ∧ (pmGet pm tk).hasClose = true := by
  simp only [tryCandidate] at h
  split_ifs at h with h1 h2 h3
  simp only [Bool.or_eq_true, not_or, Bool.not_eq_true, Bool.not_eq_true'] at h1
  rcases hd : (rsi (((closeCol (pmGet pm tk)).filterMap id).map some)).getLast? with _ | d <;>
    rw [hd] at h
  · exact absurd h (by simp)
  · rcases hw : (rsi ((weeklyCloses (pmGet pm tk)).map some)).getLast? with _ | w <;>
      rw [hw] at h
    · exact absurd h (by simp)
    · rw [Option.some_inj] at h
      subst h
      exact ⟨rfl, rfl, by omega, by omega, h1.1, Bool.of_not_eq_false h1.2⟩

theorem selectLoop_sorted (P : Provider) (pm : List (String × DF)) (l : List (String × ℝ))
    (acc : List Candidate)
    (hl : l.Pairwise (fun a b => a.2 ≤ b.2))
    (hacc : acc.Pairwise (fun a b => a.volatility ≤ b.volatility))
    (hcross : ∀ c ∈ acc, ∀ p ∈ l, c.volatility ≤ p.2) :
    (selectLoop P pm l acc).Pairwise (fun a b => a.volatility ≤ b.volatility) := by
  induction l generalizing acc with
  | nil => exact hacc
  | cons p rest ih =>
    by_cases hN : N_CARDS ≤ acc.length
    · simp only [selectLoop, if_pos hN]
      exact hacc
    · simp only [selectLoop, if_neg hN]
      rcases htc : tryCandidate P pm p.1 p.2 with _ | c
      · exact ih acc hl.of_cons hacc
          (fun c2 hc2 q hq => hcross c2 hc2 q (List.mem_cons_of_mem p hq))
      · have hcv : c.volatility = p.2 := (tryCandidate_fields P pm p.1 p.2 c htc).2.1
        have hrel : ∀ q ∈ rest, p.2 ≤ q.2 := (List.pairwise_cons.mp hl).1
        refine ih (acc ++ [c]) hl.of_cons ?_ ?_
        · rw [List.pairwise_append]
          refine ⟨hacc, List.pairwise_singleton _ _, ?_⟩
          intro a ha b hb
          rw [List.mem_singleton] at hb
          subst hb
          rw [hcv]
          exact hcross a ha p (List.mem_cons_self p rest)
        · intro c2 hc2 q hq
          rcases List.mem_append.mp hc2 with h2 | h2
          · exact hcross c2 h2 q (List.mem_cons_of_mem p hq)
          · rw [List.mem_singleton] at h2
            subst h2
            rw [hcv]
            exact hrel q hq

theorem sortCand_of_sorted (l : List Candidate)
    (h : l.Pairwise (fun a b => a.volatility ≤ b.volatility)) : sortCand l = l := by
  rw [sortCand]
  apply List.mergeSort_of_sorted
  exact h.imp (fun hab => by simpa using hab)

theorem sortCand_selectLoop (P : Provider) (pm : List (String × DF))
    (vl : List (String × ℝ)) :
    sortCand (selectLoop P pm (sortVol vl) []) = selectLoop P pm (sortVol vl) [] := by
  apply sortCand_of_sorted
  exact selectLoop_sorted P pm (sortVol vl) [] (sortVol_sorted vl)
    (List.Pairwise.nil) (by simp)

/-- Claim C7: the candidate ranking is a total (never-crashing, also on exact
ties) stable ascending sort by volatility score — its output is ascending, a
permutation of the input, unchanged when ties are broken by original position,
and every correctly-ordered pair (ties included) keeps its relative order; the
sort is idempotent, the final re-sort preserves the order produced by the
selection loop, the whole pipeline output equals the selection loop's output
truncated to N = 10 with signals attached, and the output never exceeds 10
entries. -/
theorem claim_C7 :
    (∀ l : List (String × ℝ), (sortVol l).Pairwise (fun a b => a.2 ≤ b.2)) ∧
    (∀ l : List (String × ℝ), (sortVol l).Perm l) ∧
    (∀ l : List (String × ℝ),
      (List.mergeSort l.enum (List.enumLE (fun a b => decide (a.2 ≤ b.2)))).map (·.2) =
        sortVol l) ∧
    (∀ (l : List (String × ℝ)) (a b : String × ℝ), a.2 ≤ b.2 →
      List.Sublist [a, b] l → List.Sublist [a, b] (sortVol l)) ∧
    (∀ l : List (String × ℝ), sortVol (sortVol l) = sortVol l) ∧
    (∀ (P : Provider) (pm : List (String × DF)) (vl : List (String × ℝ)),
      sortCand (selectLoop P pm (sortVol vl) []) = selectLoop P pm (sortVol vl) []) ∧
    (∀ P : Provider, analyze_universe P =
      ((selectLoop P ((fetch_all P NIFTY50).1)
          (sortVol (volList ((fetch_all P NIFTY50).1))) []).take N_CARDS).map
        (fun c =>
          { toCandidate := c,
            signal := (classify c.daily_rsi c.weekly_rsi).label,
            color := (classify c.daily_rsi c.weekly_rsi).color,
            cross := (classify c.daily_rsi c.weekly_rsi).cross })) ∧
    (∀ P : Provider, (analyze_universe P).length ≤ N_CARDS) := by
  refine ⟨sortVol_sorted, sortVol_perm, sortVol_stable, ?_, sortVol_idem,
    sortCand_selectLoop, ?_, ?_⟩
  · intro l a b hab h
    exact sortVol_stable_pair l a b hab h
  · intro P
    simp only [analyze_universe]
    rw [sortCand_selectLoop]
  · intro P
    simp only [analyze_universe, List.length_map]
    exact le_trans (List.length_take_le _ _) (le_refl _)

theorem claim_C7_witness :
    List.Sublist [("A", (1 : ℝ)), ("B", 1)] (sortVol [("A", (1 : ℝ)), ("B", 1)]) :=
  claim_C7.2.2.2.1 [("A", (1 : ℝ)), ("B", 1)] ("A", (1 : ℝ)) ("B", (1 : ℝ))
    (le_refl 1) (List.Sublist.refl _)

theorem selectLoop_length (P : Provider) (pm : List (String × DF))
    (l : List (String × ℝ)) (acc : List Candidate) (hacc : acc.length ≤ N_CARDS) :
    (selectLoop P pm l acc).length =
      min N_CARDS
        (acc.length + (l.filter (fun p => (tryCandidate P pm p.1 p.2).isSome)).length) := by
  induction l generalizing acc with
  | nil =>
    simp only [selectLoop, List.filter_nil, List.length_nil, Nat.add_zero]
    omega
  | cons p rest ih =>
    by_cases hN : N_CARDS ≤ acc.length
    · simp only [selectLoop, if_pos hN]
      have heq : acc.length = N_CARDS := le_antisymm hacc hN
      rw [heq]
      omega
    · simp only [selectLoop, if_neg hN]
      rcases htc : tryCandidate P pm p.1 p.2 with _ | c
      · have hf : (tryCandidate P pm p.1 p.2).isSome = false := by rw [htc]; rfl
        rw [List.filter_cons_of_neg (by simp [hf])]
        exact ih acc hacc
      · have hf : (tryCandidate P pm p.1 p.2).isSome = true := by rw [htc]; rfl
        rw [List.filter_cons_of_pos (by simp [hf])]
        have := ih (acc ++ [c]) (by simp; omega)
        rw [this]
        simp only [List.length_append, List.length_cons, List.length_nil]
        omega

theorem selectLoop_mem (P : Provider) (pm : List (String × DF))
    (l : List (String × ℝ)) (acc : List Candidate) (c : Candidate)
    (hc : c ∈ selectLoop P pm l acc) :
    c ∈ acc ∨ ∃ p ∈ l, tryCandidate P pm p.1 p.2 = some c := by
  induction l generalizing acc with
  | nil => exact Or.inl hc
  | cons p rest ih =>
    by_cases hN : N_CARDS ≤ acc.length
    · simp only [selectLoop, if_pos hN] at hc
      exact Or.inl hc
    · simp only [selectLoop, if_neg hN] at hc
      rcases htc : tryCandidate P pm p.1 p.2 with _ | c2 <;> rw [htc] at hc
      · rcases ih acc hc with h | ⟨q, hq, hqc⟩
        · exact Or.inl h
        · exact Or.inr ⟨q, List.mem_cons_of_mem p hq, hqc⟩
      · rcases ih (acc ++ [c2]) hc with h | ⟨q, hq, hqc⟩
        · rcases List.mem_append.mp h with h2 | h2
          · exact Or.inl h2
          · rw [List.mem_singleton] at h2
            subst h2
            exact Or.inr ⟨p, List.mem_cons_self p rest, htc⟩
        · exact Or.inr ⟨q, List.mem_cons_of_mem p hq, hqc⟩

theorem volList_mem (pm : List (String × DF)) (q : String × ℝ) (h : q ∈ volList pm) :
    ∃ df : DF, (q.1, df) ∈ pm ∧ df.rows.isEmpty = false ∧ df.hasClose = true ∧
      annual_vol (closeCol df) = some q.2 := by
  simp only [volList, List.mem_filterMap] at h
  obtain ⟨r, hr, hmap⟩ := h
  simp only [volPairs, List.mem_filterMap] at hr
  obtain ⟨s, hs, hif⟩ := hr
  split_ifs at hif with hcond
  rw [Option.some_inj] at hif
  subst hif
  simp only [Bool.or_eq_true, not_or, Bool.not_eq_true, Bool.not_eq_true'] at hcond
  rcases hv : annual_vol (closeCol s.2) with _ | v <;> rw [hv] at hmap
  · exact absurd hmap (by simp)
  · simp only [Option.map_some', Option.some_inj] at hmap
    subst hmap
    exact ⟨s.2, by simpa using hs, hcond.1, Bool.of_not_eq_false hcond.2, hv⟩

theorem pmGet_eq_of_mem (pm : List (String × DF)) (tk : String) (df : DF)
    (hnd : (pm.map Prod.fst).Nodup) (h : (tk, df) ∈ pm) : pmGet pm tk = df := by
  induction pm with
  | nil => exact absurd h (by simp)
  | cons q rest ih =>
    simp only [List.mem_cons] at h
    rcases h with h | h
    · subst h
      rw [pmGet, List.find?_cons_of_pos _ (by simp)]
    · have hne : q.1 ≠ tk := by
        intro hq
        have : tk ∈ rest.map Prod.fst := List.mem_map.mpr ⟨(tk, df), h, rfl⟩
        rw [List.map_cons, hq] at hnd
        exact (List.nodup_cons.mp hnd).1 this
      rw [pmGet, List.find?_cons_of_neg _ (by simpa using hne)]
      have ih2 := ih ((List.nodup_cons.mp (by simpa using hnd)).2) h
      rw [pmGet] at ih2
      exact ih2

theorem NIFTY50_nodup : NIFTY50.Nodup := by decide

theorem fetch_all_keys (P : Provider) :
    (fetch_all P NIFTY50).1 = [] ∨
      ((fetch_all P NIFTY50).1).map Prod.fst = NIFTY50 := by
  rw [fetch_all]
  by_cases h : P.batchOk = true
  · rw [h]
    have hb : (NIFTY50.length == 1) = false := by decide
    rw [hb]
    right
    rw [if_neg (by simp), if_neg (by simp)]
    rfl
  · rw [Bool.not_eq_true] at h
    rw [h]
    exact Or.inl rfl

/-- Number of tickers surviving all of the selection loop's filters among the
defined-volatility candidates of a pipeline run. -/
noncomputable def passCount (P : Provider) : Nat :=
  ((volList ((fetch_all P NIFTY50).1)).filter
    (fun p => (tryCandidate P ((fetch_all P NIFTY50).1) p.1 p.2).isSome)).length

/-- Claim C6: in every run, the output size equals `min N_CARDS (number of
tickers surviving all filters)`, and every output row's ticker has a defined
(non-NaN) volatility equal to the stored score, at least 40 daily observations
after dropping missing values, and at least 8 weekly observations. -/
theorem claim_C6 (P : Provider) :
    (analyze_universe P).length = min N_CARDS (passCount P) ∧
    (analyze_universe P).Forall (fun card =>
      annual_vol (closeCol (pmGet ((fetch_all P NIFTY50).1) card.ticker)) =
        some card.volatility ∧
      40 ≤ ((closeCol (pmGet ((fetch_all P NIFTY50).1) card.ticker)).filterMap id).length ∧
      8 ≤ (weeklyCloses (pmGet ((fetch_all P NIFTY50).1) card.ticker)).length) := by
  constructor
  · simp only [analyze_universe, List.length_map, List.length_take, sortCand,
      List.length_mergeSort]
    rw [selectLoop_length P _ _ [] (by simp [N_CARDS])]
    have hperm : ((sortVol (volList ((fetch_all P NIFTY50).1))).filter
        (fun p => (tryCandidate P ((fetch_all P NIFTY50).1) p.1 p.2).isSome)).length =
        passCount P := by
      rw [passCount]
      exact ((sortVol_perm _).filter _).length_eq
    rw [List.length_nil, Nat.zero_add, hperm]
    omega
  · rw [List.forall_iff_forall_mem]
    intro card hcard
    simp only [analyze_universe, List.mem_map] at hcard
    obtain ⟨c, hc, rfl⟩ := hcard
    have hc2 : c ∈ selectLoop P ((fetch_all P NIFTY50).1)
        (sortVol (volList ((fetch_all P NIFTY50).1))) [] := by
      have hm := List.mem_of_mem_take hc
      rw [sortCand, List.mem_mergeSort] at hm
      exact hm
    rcases selectLoop_mem P _ _ [] c hc2 with h | ⟨p, hp, htc⟩
    · exact absurd h (by simp)
    · have hp2 : p ∈ volList ((fetch_all P NIFTY50).1) := by
        rw [sortVol, List.mem_mergeSort] at hp
        exact hp
      obtain ⟨df, hdf, hne, hhc, hav⟩ := volList_mem _ p hp2
      have hnd : (((fetch_all P NIFTY50).1).map Prod.fst).Nodup := by
        rcases fetch_all_keys P with h0 | h0
        · rw [h0]
          exact List.nodup_nil
        · rw [h0]
          exact NIFTY50_nodup
      have hget : pmGet ((fetch_all P NIFTY50).1) p.1 = df :=
        pmGet_eq_of_mem _ _ _ hnd hdf
      obtain ⟨htk, hvol, h40, h8, _, _⟩ := tryCandidate_fields P _ p.1 p.2 c htc
      refine ⟨?_, ?_, ?_⟩
      · show annual_vol
            (closeCol (pmGet ((fetch_all P NIFTY50).1) c.ticker)) = some c.volatility
        rw [htk, hget, hvol]
        exact hav
      · show 40 ≤ ((closeCol (pmGet ((fetch_all P NIFTY50).1) c.ticker)).filterMap id).length
        rw [htk]
        exact h40
      · show 8 ≤ (weeklyCloses (pmGet ((fetch_all P NIFTY50).1) c.ticker)).length
        rw [htk]
        exact h8

/-- Claim C1: when the provider download fails entirely (so no ticker survives
any filter) the pipeline returns the empty result; no exception escapes the
pipeline boundary — `analyze_universe` is a total function and the boundary
always receives either the distinct empty-result condition or the populated
ranked list. -/
theorem claim_C1 (P : Provider) :
    (P.batchOk = false → analyze_universe P = []) ∧
    (passCount P = 0 → analyze_universe P = []) ∧
    (analyze_universe P = [] → pipelineBoundary P = none) ∧
    (analyze_universe P ≠ [] → pipelineBoundary P = some (analyze_universe P)) := by
  have hlen : (analyze_universe P).length = min N_CARDS (passCount P) := by
    simp only [analyze_universe, List.length_map, List.length_take, sortCand,
      List.length_mergeSort]
    rw [selectLoop_length P _ _ [] (by simp [N_CARDS])]
    have hperm : ((sortVol (volList ((fetch_all P NIFTY50).1))).filter
        (fun p => (tryCandidate P ((fetch_all P NIFTY50).1) p.1 p.2).isSome)).length =
        passCount P := by
      rw [passCount]
      exact ((sortVol_perm _).filter _).length_eq
    rw [List.length_nil, Nat.zero_add, hperm]
    omega
  refine ⟨?_, ?_, ?_, ?_⟩
  · intro h
    rw [analyze_universe, fetch_all, h]
    simp [volList, volPairs, sortVol, sortCand, selectLoop, List.mergeSort_nil]
  · intro h
    rw [h] at hlen
    simp only [Nat.min_zero] at hlen
    exact List.length_eq_zero.mp hlen
  · intro h
    simp only [pipelineBoundary, h]
    rfl
  · intro h
    simp only [pipelineBoundary]
    rw [if_neg (by simpa [List.isEmpty_iff] using h)]

/-- A provider whose batch download raises. -/
def Pfail : Provider := ⟨false, fun _ => none, emptyDF, fun _ => none, fun _ => none⟩

theorem claim_C1_witness :
    analyze_universe Pfail = [] ∧ pipelineBoundary Pfail = none :=
  ⟨(claim_C1 Pfail).1 rfl, (claim_C1 Pfail).2.2.1 ((claim_C1 Pfail).1 rfl)⟩
